import Mathlib

/-!
Shallow embedding of `src/wind_rose.py` (class `WindRose`) and proofs about it.

Strings are modelled as `List Char`; Python floats are modelled as `ℚ`
(the numeric claims are about exact decimal inputs and rational
arithmetic, and the spec's "floating tolerance" bounds are implied by
exact equalities); datetimes are modelled by an explicit Gregorian
record with exact calendar arithmetic.
-/

deriving instance DecidableEq for Except

namespace WindRose

/-- Python strings are modelled as lists of characters. -/
abbrev Tok := List Char

/-- The class attribute `WindRose.directions`: the 17 canonical direction
tokens, index 0..16 (16 compass points followed by "静穏" = calm). -/
def directions : List Tok :=
  [ ['北'],
    ['北', '北', '東'],
    ['北', '東'],
    ['東', '北', '東'],
    ['東'],
    ['東', '南', '東'],
    ['南', '東'],
    ['南', '南', '東'],
    ['南'],
    ['南', '南', '西'],
    ['南', '西'],
    ['西', '南', '西'],
    ['西'],
    ['西', '北', '西'],
    ['北', '西'],
    ['北', '北', '西'],
    ['静', '穏'] ]

/-- The calm token "静穏". -/
def calmTok : Tok := ['静', '穏']

/-- The dict `self.direction_to_index` built in `__init__`:
`{d: i for i, d in enumerate(self.directions)}`, as a lookup function.
`none` corresponds to a Python `KeyError` on subscripting. -/
def direction_to_index (d : Tok) : Option Nat :=
  directions.findIdx? (fun x => x == d)

/-- The two failure modes of `parse_wind_direction`:
`valueError` is `raise ValueError("Invalid direction")` inside the
stripping loop; `keyError raw` is the `KeyError` raised by the final
`self.direction_to_index[raw]` lookup when `raw` is not canonical. -/
inductive DirError where
  | valueError : DirError
  | keyError : Tok → DirError
deriving DecidableEq, Repr

/-- The `while True` loop in the `raw_starts` branch of
`parse_wind_direction`: repeatedly `raw = raw[:-1]`, stopping when the
remainder is canonical (`break`) or empty (`raise ValueError`).
The loop shortens `raw` by one character per iteration, so running it
with `raw.length` as fuel is exact (the fuel-exhausted case is
unreachable: it would require an empty remainder, which raises first). -/
def stripRightFuel : Nat → Tok → Except DirError Tok
  | 0, _ => .error .valueError
  | fuel + 1, raw =>
    if raw.dropLast ∈ directions then .ok raw.dropLast
    else if raw.dropLast = [] then .error .valueError
    else stripRightFuel fuel raw.dropLast

/-- The right-stripping loop entered when `raw_starts` holds. -/
def stripRight (raw : Tok) : Except DirError Tok :=
  stripRightFuel raw.length raw

/-- The `while True` loop in the `raw_ends` branch of
`parse_wind_direction`: repeatedly `raw = raw[1:]` with the same exit
conditions. -/
def stripLeftFuel : Nat → Tok → Except DirError Tok
  | 0, _ => .error .valueError
  | fuel + 1, raw =>
    if raw.tail ∈ directions then .ok raw.tail
    else if raw.tail = [] then .error .valueError
    else stripLeftFuel fuel raw.tail

/-- The left-stripping loop entered when `raw_ends` holds. -/
def stripLeft (raw : Tok) : Except DirError Tok :=
  stripLeftFuel raw.length raw

/-- The final `return` of `parse_wind_direction`:
`self.direction_to_index["静穏"] if raw == "" else self.direction_to_index[raw]`,
with a missing key surfacing as `KeyError(raw)`. -/
def lookupIndex (raw : Tok) : Except DirError Nat :=
  match direction_to_index (if raw = [] then calmTok else raw) with
  | some i => .ok i
  | none => .error (.keyError raw)

/-- `raw_starts`: `raw == "" or raw.startswith(tuple(self.directions))`. -/
def rawStarts (raw : Tok) : Bool :=
  raw.isEmpty || directions.any (fun d => d.isPrefixOf raw)

/-- `raw_ends`: `raw == "" or raw.endswith(tuple(self.directions))`. -/
def rawEnds (raw : Tok) : Bool :=
  raw.isEmpty || directions.any (fun d => d.isSuffixOf raw)

/-- `WindRose.parse_wind_direction`. -/
def parse_wind_direction (raw : Tok) : Except DirError Nat :=
  if xor (rawStarts raw) (rawEnds raw) then
    match (if rawStarts raw then stripRight raw else stripLeft raw) with
    | .error e => .error e
    | .ok r => lookupIndex r
  else
    lookupIndex raw

/-- Python `str.strip()` (whitespace removal at both ends), as used on
`row[0]`, `row[1]`, `row[3]` in `read_wind`. -/
def pystrip (s : Tok) : Tok :=
  ((s.dropWhile Char.isWhitespace).reverse.dropWhile Char.isWhitespace).reverse

/-- A Gregorian calendar timestamp, modelling Python `datetime` at
second resolution (the parsed format has no sub-second part, and the
`microsecond=0` in `read_wind` is therefore a no-op in this model). -/
structure DateTime where
  year : Nat
  month : Nat
  day : Nat
  hour : Nat
  minute : Nat
  second : Nat
deriving DecidableEq, Repr

/-- Gregorian leap-year rule (as in Python's `calendar`/`datetime`). -/
def isLeapYear (y : Nat) : Bool :=
  y % 4 == 0 && (y % 100 != 0 || y % 400 == 0)

/-- Number of days in a Gregorian month. -/
def daysInMonth (y m : Nat) : Nat :=
  if m = 2 then (if isLeapYear y then 29 else 28)
  else if m = 4 ∨ m = 6 ∨ m = 9 ∨ m = 11 then 30
  else 31

/-- `dt -= timedelta(hours=1)`: exact calendar arithmetic for
subtracting one hour, rolling over day, month and year boundaries. -/
def subOneHour (dt : DateTime) : DateTime :=
  if dt.hour ≥ 1 then { dt with hour := dt.hour - 1 }
  else if dt.day > 1 then { dt with hour := 23, day := dt.day - 1 }
  else if dt.month > 1 then
    { dt with
        hour := 23
        month := dt.month - 1
        day := daysInMonth dt.year (dt.month - 1) }
  else
    { year := dt.year - 1
      month := 12
      day := 31
      hour := 23
      minute := dt.minute
      second := dt.second }

/-- Decimal value of a digit character. -/
def digitVal (c : Char) : Nat := c.toNat - '0'.toNat

/-- `datetime.strptime(s, "%Y/%m/%d %H:%M:%S")` on zero-padded
timestamps: four year digits, two digits for each other field, with the
same range validation `datetime` performs (month 1–12, day within the
month honouring leap years, hour < 24, minute < 60, second < 60,
year ≥ 1). `none` models the raised `ValueError`. -/
def parseDateTime (s : Tok) : Option DateTime :=
  match s with
  | [y1, y2, y3, y4, c1, m1, m2, c2, d1, d2, c3, h1, h2, c4, n1, n2, c5, s1, s2] =>
    if c1 = '/' ∧ c2 = '/' ∧ c3 = ' ' ∧ c4 = ':' ∧ c5 = ':' ∧
        ([y1, y2, y3, y4, m1, m2, d1, d2, h1, h2, n1, n2, s1, s2].all Char.isDigit) then
      let y := digitVal y1 * 1000 + digitVal y2 * 100 + digitVal y3 * 10 + digitVal y4
      let mo := digitVal m1 * 10 + digitVal m2
      let da := digitVal d1 * 10 + digitVal d2
      let ho := digitVal h1 * 10 + digitVal h2
      let mi := digitVal n1 * 10 + digitVal n2
      let se := digitVal s1 * 10 + digitVal s2
      if 1 ≤ y ∧ 1 ≤ mo ∧ mo ≤ 12 ∧ 1 ≤ da ∧ da ≤ daysInMonth y mo ∧
          ho ≤ 23 ∧ mi ≤ 59 ∧ se ≤ 59 then
        some ⟨y, mo, da, ho, mi, se⟩
      else none
    else none
  | _ => none

/-- Numeric value of a digit string (most significant first). -/
def digitsVal (l : Tok) : Nat := l.foldl (fun acc c => acc * 10 + digitVal c) 0

/-- Python `float(s)` on plain decimal literals (optional sign, integer
part, optional fractional part), the only shapes the wind-speed column
takes; exponents/`inf`/`nan` are outside the model. `none` models the
raised `ValueError`. -/
def parseFloat (s : Tok) : Option ℚ :=
  let signed : ℚ × Tok :=
    match s with
    | '-' :: r => (-1, r)
    | '+' :: r => (1, r)
    | r => (1, r)
  let ip := signed.2.takeWhile Char.isDigit
  let rest := signed.2.dropWhile Char.isDigit
  match rest with
  | [] => if ip = [] then none else some (signed.1 * digitsVal ip)
  | '.' :: fp =>
    if fp.all Char.isDigit ∧ (ip ≠ [] ∨ fp ≠ []) then
      some (signed.1 * ((digitsVal ip : ℚ) + (digitsVal fp : ℚ) / 10 ^ fp.length))
    else none
  | _ => none

/-- One entry of the `wind_data` list built by `read_wind`. -/
structure WindRecord where
  datetime : DateTime
  day : DateTime
  month : Nat
  wind : ℚ
  direction_index : Nat
deriving DecidableEq, Repr

/-- The exceptions the row-processing `try` block of `read_wind` can
raise (all are re-raised after printing the row, aborting the load). -/
inductive RowError where
  | indexError : RowError
  | malformedTimestamp : RowError
  | malformedSpeed : RowError
  | direction : DirError → RowError
deriving DecidableEq, Repr

/-- The body of the `for row in wind_reader` loop in `read_wind`:
parse `row[0]` as a timestamp, subtract one hour, zero the time-of-day
for `day`, take the month from the shifted timestamp, parse `row[1]`
as the speed (empty → 0), and normalize `row[3]` as the direction. -/
def process_row (row : List Tok) : Except RowError WindRecord :=
  match row.get? 0 with
  | none => .error .indexError
  | some f0 =>
    match parseDateTime (pystrip f0) with
    | none => .error .malformedTimestamp
    | some dt0 =>
      let dt := subOneHour dt0
      let day : DateTime := { dt with hour := 0, minute := 0, second := 0 }
      let month := dt.month
      match row.get? 1 with
      | none => .error .indexError
      | some f1 =>
        let row1 := pystrip f1
        match (if row1 = [] then some (0 : ℚ) else parseFloat row1) with
        | none => .error .malformedSpeed
        | some wind =>
          match row.get? 3 with
          | none => .error .indexError
          | some f3 =>
            match parse_wind_direction (pystrip f3) with
            | .error e => .error (.direction e)
            | .ok di =>
              .ok { datetime := dt, day := day, month := month,
                    wind := wind, direction_index := di }

/-- The month-level `group_by(["month"]).agg(nhours=pl.len())` of
`read_wind`: total observation-hour count of month `m`. -/
def nhours (rows : List WindRecord) (m : Nat) : Nat :=
  (rows.filter (fun r => r.month == m)).length

/-- The rows of the `group_by(["month", "direction_index"])` group
keyed by `(m, d)`. -/
def groupRows (rows : List WindRecord) (m d : Nat) : List WindRecord :=
  rows.filter (fun r => r.month == m && r.direction_index == d)

/-- `wind_percentage = pl.len() / pl.col("nhours").first() * 100.0`:
the `nhours` column is constant (`= nhours rows m`) on the group after
the join on `month`. -/
def wind_percentage (rows : List WindRecord) (m d : Nat) : ℚ :=
  ((groupRows rows m d).length : ℚ) / (nhours rows m : ℚ) * 100

/-- `wind_mean = pl.col("wind").mean()` on the `(m, d)` group (groups
in the table are nonempty, so the empty case never arises there). -/
def wind_mean (rows : List WindRecord) (m d : Nat) : ℚ :=
  (((groupRows rows m d).map (fun r => r.wind)).sum) /
    ((groupRows rows m d).length : ℚ)

/-- `wind_max = pl.col("wind").max()` on the `(m, d)` group (groups in
the table are nonempty; `0` stands for the null of an empty maximum). -/
def wind_max (rows : List WindRecord) (m d : Nat) : ℚ :=
  ((groupRows rows m d).map (fun r => r.wind)).foldr max 0

/-- The `(month, direction_index)` group keys present in the data: one
per distinct pair occurring in `rows` (polars group order is
unspecified; the model uses `dedup` order). -/
def presentPairs (rows : List WindRecord) : List (Nat × Nat) :=
  (rows.map (fun r => (r.month, r.direction_index))).dedup

/-- One row of `self.data_df`. -/
structure SectorStat where
  month : Nat
  direction_index : Nat
  wind_percentage : ℚ
  wind_mean : ℚ
  wind_max : ℚ
deriving DecidableEq, Repr

/-- `self.data_df` as built at the end of `read_wind` (after
`fill_nan(0)`, which is the identity here: no group statistic of a
nonempty group is NaN in exact arithmetic). -/
def data_table (rows : List WindRecord) : List SectorStat :=
  (presentPairs rows).map (fun p =>
    { month := p.1, direction_index := p.2,
      wind_percentage := wind_percentage rows p.1 p.2,
      wind_mean := wind_mean rows p.1 p.2,
      wind_max := wind_max rows p.1 p.2 })

/-- The distinct months occurring in the (shifted) data. -/
def presentMonths (rows : List WindRecord) : List Nat :=
  (rows.map (fun r => r.month)).dedup

/-- The distinct sector indexes occurring in month `m`. -/
def presentSectors (rows : List WindRecord) (m : Nat) : List Nat :=
  ((rows.filter (fun r => r.month == m)).map (fun r => r.direction_index)).dedup

/-- The three admissible values of the `column` argument of
`create_lader_chart` (the `assert` at its head). -/
inductive StatColumn where
  | wind_percentage : StatColumn
  | wind_mean : StatColumn
  | wind_max : StatColumn
deriving DecidableEq, Repr

/-- Selecting the `column` statistic from a table row. -/
def statValue (c : StatColumn) (s : SectorStat) : ℚ :=
  match c with
  | .wind_percentage => s.wind_percentage
  | .wind_mean => s.wind_mean
  | .wind_max => s.wind_max

/-- `valid_direction_indexes: list[int] = list(range(16))`. -/
def valid_direction_indexes : List Nat := List.range 16

/-- The per-month lookup of `create_lader_chart`: filter `data_df` to
`month == m` and `direction_index.is_in(range(16))`, sorted by
`direction_index`. -/
def chart_rows (table : List SectorStat) (m : Nat) : List SectorStat :=
  (table.filter (fun s =>
      s.month == m && decide (s.direction_index ∈ valid_direction_indexes))).mergeSort
    (fun a b => a.direction_index ≤ b.direction_index)

/-- `values` for one month: the selected statistic column of the
filtered, sorted frame. -/
def chart_values (table : List SectorStat) (c : StatColumn) (m : Nat) : List ℚ :=
  (chart_rows table m).map (statValue c)

/-- `draw_values += draw_values[:1]` / `angle_list += angle_list[:1]`:
closing a polyline by repeating its first entry. -/
def closePoly (vs : List ℚ) : List ℚ := vs ++ vs.take 1

/-- Angles are represented by their coefficient of `2π` ("turns"): the
source computes `t * 2.0 * np.pi`; since `2π > 0`, the comparisons
`x < 0` and `x >= 2.0 * np.pi` of the two wrapping passes are
equivalent to `t < 0` and `t ≥ 1` on the coefficient. This is the raw
entry `(0.25 - (i / 16.0) + (self.angle / 360)) * 2.0 * np.pi`. -/
def angle_entry (rot : ℤ) (i : ℕ) : ℚ :=
  1 / 4 - (i : ℚ) / 16 + (rot : ℚ) / 360

/-- First wrapping pass: `x + (2.0 * np.pi) if x < 0 else x`. -/
def wrap_neg (x : ℚ) : ℚ := if x < 0 then x + 1 else x

/-- Second wrapping pass: `x - (2.0 * np.pi) if x >= 2.0 * np.pi else x`. -/
def wrap_hi (x : ℚ) : ℚ := if 1 ≤ x then x - 1 else x

/-- `angle_list` of `create_lader_chart` before closing: 16 entries,
one per sector 0..15 (sector 16, calm, gets none). -/
def angle_list (rot : ℤ) : List ℚ :=
  (((List.range 16).map (fun i => angle_entry rot i)).map wrap_neg).map wrap_hi

/-- `sns.hls_palette(n, l=0.5, s=1.0)` hue sequence: seaborn draws `n`
hues `linspace(0, 1, n + 1)[:-1]`, shifts them by the default
`h = 0.01` and reduces them modulo 1. -/
def hls_hues (n : Nat) : List ℚ :=
  (List.range n).map (fun i : ℕ => Int.fract ((i : ℚ) / (n : ℚ) + 1 / 100))

/-- A color in HLS coordinates (hue cyclic in [0, 1)); the RGB
conversion seaborn applies afterwards is an injective external
function of this triple and is not modelled. -/
structure HLSColor where
  hue : ℚ
  lightness : ℚ
  saturation : ℚ
deriving DecidableEq, Repr

/-- The class attribute `color_palette = sns.hls_palette(13, l=0.5, s=1.0)`. -/
def color_palette : List HLSColor :=
  (hls_hues 13).map (fun hu => { hue := hu, lightness := 1 / 2, saturation := 1 })

/-- `self.color_palette[month - 1]` in `create_lader_chart` (`none`
models an `IndexError`). -/
def series_color (month : Nat) : Option HLSColor :=
  color_palette.get? (month - 1)

/-- The first `while` loop of `__init__`: `while angle < 0: angle += 360`. -/
def add_loop (a : ℤ) : ℤ :=
  if a < 0 then add_loop (a + 360) else a
termination_by (-a).toNat
decreasing_by omega

/-- The second `while` loop of `__init__`: `while angle >= 360: angle -= 360`. -/
def sub_loop (a : ℤ) : ℤ :=
  if a ≥ 360 then sub_loop (a - 360) else a
termination_by a.toNat
decreasing_by omega

/-- The angle normalization of `__init__`: both loops in sequence. -/
def normalize_angle (a : ℤ) : ℤ := sub_loop (add_loop a)

/-- The externally observable steps of `__init__`, in program order. -/
inductive InitAction where
  | mkdirFigDir : InitAction
  | parseAndAggregate : InitAction
  | setAngle : InitAction
  | loadMapImage : InitAction
deriving DecidableEq, Repr

/-- The fatal errors `__init__` can raise. -/
inductive InitError where
  | windNotFound : InitError
  | mapNotFound : InitError
  | row : RowError → InitError
deriving DecidableEq, Repr

/-- The state a successfully constructed `WindRose` holds (the loaded
map raster itself is external and not part of the model). -/
structure InitState where
  angle : ℤ
  data_table : List SectorStat
deriving DecidableEq, Repr

/-- The filesystem environment `__init__` runs against: presence of the
figure directory, the contents of `wind.csv` as parsed rows (`none` if
the file is absent), and presence of `map.png`. -/
structure Env where
  fig_dir_exists : Bool
  wind_file : Option (List (List Tok))
  map_file_exists : Bool

/-- `WindRose.__init__`, with the trace of performed actions: create
the figure directory if needed, check `wind.csv` exists (else
`FileNotFoundError`), run `read_wind` (row parsing + aggregation;
any row exception aborts), normalize the angle, check `map.png`
exists (else `FileNotFoundError`), and load the map. -/
def init (env : Env) (angle : ℤ) :
    Except InitError InitState × List InitAction :=
  let acts0 : List InitAction :=
    if env.fig_dir_exists then [] else [.mkdirFigDir]
  match env.wind_file with
  | none => (.error .windNotFound, acts0)
  | some rows =>
    let acts1 := acts0 ++ [.parseAndAggregate]
    match rows.mapM process_row with
    | .error e => (.error (.row e), acts1)
    | .ok recs =>
      let acts2 := acts1 ++ [.setAngle]
      if env.map_file_exists then
        (.ok { angle := normalize_angle angle, data_table := data_table recs },
          acts2 ++ [.loadMapImage])
      else
        (.error .mapNotFound, acts2)

/-- Finite check over the canonical table: whenever one canonical token
extends another on the right, the first extension character is itself a
canonical one-character token. -/
def prefixExtOK : Bool :=
  directions.all fun t2 =>
    (List.range t2.length).all fun j =>
      !(decide (t2.take j ∈ directions)) ||
        (match t2.drop j with
         | c :: _ => decide ([c] ∈ directions)
         | [] => true)

/-- Finite check over the canonical table: whenever one canonical token
extends another on the left, the character adjacent to the embedded
token is itself a canonical one-character token. -/
def suffixExtOK : Bool :=
  directions.all fun t2 =>
    (List.range t2.length).all fun j =>
      match t2.drop j with
      | c :: rest => !(decide (rest ∈ directions)) || decide ([c] ∈ directions)
      | [] => true

/-! ### Lemmas about the canonical direction table -/

lemma nil_not_mem_directions : ([] : Tok) ∉ directions := by decide

lemma mem_directions_ne_nil {d : Tok} (h : d ∈ directions) : d ≠ [] := by
  rintro rfl
  exact nil_not_mem_directions h

lemma direction_to_index_isSome {d : Tok} (h : d ∈ directions) :
    (direction_to_index d).isSome := by
  unfold direction_to_index
  rw [List.findIdx?_eq_some_of_exists ⟨d, h, by simp⟩]
  rfl

lemma direction_to_index_eq_none {d : Tok} (h : d ∉ directions) :
    direction_to_index d = none := by
  unfold direction_to_index
  rw [List.findIdx?_eq_none_iff]
  intro x hx
  simp only [beq_eq_false_iff_ne, ne_eq]
  rintro rfl
  exact h hx

lemma direction_to_index_getD_le {d : Tok} (h : d ∈ directions) :
    (direction_to_index d).getD 0 ≤ 16 := by
  obtain ⟨i, hi⟩ := Option.isSome_iff_exists.mp (direction_to_index_isSome h)
  have hlt : i < directions.length :=
    (List.findIdx?_eq_some_iff_findIdx_eq.mp hi).1
  rw [hi]
  simpa [directions] using Nat.lt_succ_iff.mp (by simpa [directions] using hlt)

lemma prefixExt {t1 t2 : Tok} (h1 : t1 ∈ directions) (h2 : t2 ∈ directions)
    {c : Char} {rest : Tok} (he : t2 = t1 ++ c :: rest) : [c] ∈ directions := by
  have hall : prefixExtOK = true := by decide
  have h2' := List.all_eq_true.mp (List.all_eq_true.mp hall t2 h2)
  have hj : t1.length ∈ List.range t2.length := by
    rw [List.mem_range, he, List.length_append, List.length_cons]
    omega
  have hx := h2' _ hj
  rw [he, List.take_left, List.drop_left] at hx
  simp only [Bool.or_eq_true, Bool.not_eq_true', decide_eq_false_iff_not,
    decide_eq_true_eq] at hx
  rcases hx with hx | hx
  · exact absurd h1 hx
  · exact hx

lemma suffixExt {t1 t2 : Tok} (h1 : t1 ∈ directions) (h2 : t2 ∈ directions)
    {c : Char} {pre : Tok} (he : t2 = pre ++ c :: t1) : [c] ∈ directions := by
  have hall : suffixExtOK = true := by decide
  have h2' := List.all_eq_true.mp (List.all_eq_true.mp hall t2 h2)
  have hj : pre.length ∈ List.range t2.length := by
    rw [List.mem_range, he, List.length_append, List.length_cons]
    omega
  have hx := h2' _ hj
  rw [he, List.drop_left] at hx
  simp only [Bool.or_eq_true, Bool.not_eq_true', decide_eq_false_iff_not,
    decide_eq_true_eq] at hx
  rcases hx with hx | hx
  · exact absurd h1 hx
  · exact hx

/-! ### Lemmas about `rawStarts`, `rawEnds`, `lookupIndex` -/

lemma rawStarts_eq {raw : Tok} :
    rawStarts raw = true ↔ raw = [] ∨ ∃ t ∈ directions, t <+: raw := by
  simp [rawStarts, List.isPrefixOf_iff_prefix, List.isEmpty_iff]

lemma rawEnds_eq {raw : Tok} :
    rawEnds raw = true ↔ raw = [] ∨ ∃ t ∈ directions, t <:+ raw := by
  simp [rawEnds, List.isSuffixOf_iff_suffix, List.isEmpty_iff]

lemma lookupIndex_of_mem {d : Tok} (h : d ∈ directions) :
    lookupIndex d = .ok ((direction_to_index d).getD 0) := by
  obtain ⟨i, hi⟩ := Option.isSome_iff_exists.mp (direction_to_index_isSome h)
  unfold lookupIndex
  rw [if_neg (mem_directions_ne_nil h), hi]
  rfl

/-! ### The stripping loops reach a canonical token -/

lemma stripRightFuel_concat_ok {canon : Tok} (hc : canon ∈ directions) :
    ∀ g : Tok, g ≠ [] →
      (∀ g', g' ≠ [] → g' <+: g → canon ++ g' ∉ directions) →
      stripRightFuel (canon ++ g).length (canon ++ g) = .ok canon := by
  intro g
  induction g using List.reverseRecOn with
  | nil => exact fun h => absurd rfl h
  | append_singleton l a ih =>
    intro _ hno
    have hlen : (canon ++ (l ++ [a])).length = (canon ++ l).length + 1 := by
      simp
      omega
    rw [hlen]
    have hdrop : (canon ++ (l ++ [a])).dropLast = canon ++ l := by
      rw [← List.append_assoc]
      exact List.dropLast_concat
    simp only [stripRightFuel, hdrop]
    rcases eq_or_ne l [] with rfl | hl
    · simp only [List.append_nil]
      rw [if_pos hc]
    · have hnotin : canon ++ l ∉ directions := hno l hl ⟨[a], rfl⟩
      have hne : canon ++ l ≠ [] := by
        simp [mem_directions_ne_nil hc]
      rw [if_neg hnotin, if_neg hne]
      exact ih hl fun g' h1 h2 => hno g' h1 (h2.trans ⟨[a], rfl⟩)

lemma stripLeftFuel_cons_ok {canon : Tok} (hc : canon ∈ directions) :
    ∀ g : Tok, g ≠ [] →
      (∀ g', g' ≠ [] → g' <:+ g → g' ++ canon ∉ directions) →
      stripLeftFuel (g ++ canon).length (g ++ canon) = .ok canon := by
  intro g
  induction g with
  | nil => exact fun h => absurd rfl h
  | cons c l ih =>
    intro _ hno
    have hlen : (c :: l ++ canon).length = (l ++ canon).length + 1 := by
      simp
    rw [hlen, List.cons_append]
    simp only [stripLeftFuel, List.tail_cons]
    rcases eq_or_ne l [] with rfl | hl
    · simp only [List.nil_append]
      rw [if_pos hc]
    · have hnotin : l ++ canon ∉ directions := hno l hl ⟨[c], rfl⟩
      have hne : l ++ canon ≠ [] := by
        simp [mem_directions_ne_nil hc]
      rw [if_neg hnotin, if_neg hne]
      exact ih hl fun g' h1 h2 => hno g' h1 (h2.trans ⟨[c], rfl⟩)

lemma stripRightFuel_reaches :
    ∀ raw : Tok, ∀ t ∈ directions, t <+: raw → t ≠ raw →
      ∃ r ∈ directions, stripRightFuel raw.length raw = .ok r := by
  intro raw
  induction raw using List.reverseRecOn with
  | nil =>
    intro t ht hp hne
    exact absurd (List.prefix_nil.mp hp) hne
  | append_singleton l a ih =>
    intro t ht hp hne
    have hlen : (l ++ [a]).length = l.length + 1 := by simp
    rw [hlen]
    simp only [stripRightFuel, List.dropLast_concat]
    by_cases hmem : l ∈ directions
    · rw [if_pos hmem]
      exact ⟨l, hmem, rfl⟩
    · rw [if_neg hmem]
      have hlt : t.length ≤ l.length := by
        have h1 : t.length ≤ (l ++ [a]).length := hp.length_le
        rcases Nat.lt_or_ge t.length (l ++ [a]).length with h | h
        · simpa using Nat.lt_succ_iff.mp (by simpa using h)
        · exact absurd (hp.eq_of_length (le_antisymm h1 h)) hne
      have hpl : t <+: l := by
        have := List.prefix_iff_eq_take.mp hp
        rw [List.take_append_of_le_length hlt] at this
        rw [this]
        exact List.take_prefix _ _
      have hlne : l ≠ [] := by
        rintro rfl
        rw [List.prefix_nil.mp hpl] at ht
        exact nil_not_mem_directions ht
      rw [if_neg hlne]
      rcases eq_or_ne t l with rfl | htl
      · exact absurd ht hmem
      · exact ih t ht hpl htl

lemma stripLeftFuel_reaches :
    ∀ raw : Tok, ∀ t ∈ directions, t <:+ raw → t ≠ raw →
      ∃ r ∈ directions, stripLeftFuel raw.length raw = .ok r := by
  intro raw
  induction raw with
  | nil =>
    intro t ht hp hne
    exact absurd (List.suffix_nil.mp hp) hne
  | cons c l ih =>
    intro t ht hp hne
    have hlen : (c :: l).length = l.length + 1 := by simp
    rw [hlen]
    simp only [stripLeftFuel, List.tail_cons]
    by_cases hmem : l ∈ directions
    · rw [if_pos hmem]
      exact ⟨l, hmem, rfl⟩
    · rw [if_neg hmem]
      have hpl : t <:+ l := by
        obtain ⟨s, hs⟩ := hp
        rcases eq_or_ne s [] with rfl | hsne
        · exact absurd (by simpa using hs) hne
        · obtain ⟨c2, s2, rfl⟩ := List.exists_cons_of_ne_nil hsne
          rw [List.cons_append] at hs
          exact ⟨s2, (List.cons.injEq .. ▸ hs).2⟩
      have hlne : l ≠ [] := by
        rintro rfl
        rw [List.suffix_nil.mp hpl] at ht
        exact nil_not_mem_directions ht
      rw [if_neg hlne]
      rcases eq_or_ne t l with rfl | htl
      · exact absurd ht hmem
      · exact ih t ht hpl htl

/-! ### Behaviour of `parse_wind_direction` on the three token shapes -/

lemma parse_of_mem {d : Tok} (hd : d ∈ directions) :
    parse_wind_direction d = .ok ((direction_to_index d).getD 0) := by
  have h1 : rawStarts d = true := rawStarts_eq.mpr (Or.inr ⟨d, hd, List.prefix_refl d⟩)
  have h2 : rawEnds d = true := rawEnds_eq.mpr (Or.inr ⟨d, hd, List.suffix_refl d⟩)
  unfold parse_wind_direction
  rw [h1, h2]
  simpa using lookupIndex_of_mem hd

lemma parse_append_garbage {canon g : Tok} (hc : canon ∈ directions) (hg : g ≠ [])
    (hchars : ∀ c ∈ g, [c] ∉ directions)
    (hnosuf : ∀ t ∈ directions, ¬ t <:+ canon ++ g) :
    parse_wind_direction (canon ++ g) = .ok ((direction_to_index canon).getD 0) := by
  have hne : canon ++ g ≠ [] := fun h =>
    mem_directions_ne_nil hc (List.append_eq_nil.mp h).1
  have hstart : rawStarts (canon ++ g) = true :=
    rawStarts_eq.mpr (Or.inr ⟨canon, hc, List.prefix_append canon g⟩)
  have hend : rawEnds (canon ++ g) = false := by
    rw [Bool.eq_false_iff]
    intro hx
    rcases rawEnds_eq.mp hx with h | ⟨t, ht, hsuf⟩
    · exact hne h
    · exact hnosuf t ht hsuf
  have hstrip : stripRight (canon ++ g) = .ok canon := by
    unfold stripRight
    refine stripRightFuel_concat_ok hc g hg ?_
    intro g' h1 h2 hmem
    obtain ⟨c, g'', rfl⟩ := List.exists_cons_of_ne_nil h1
    exact absurd (prefixExt hc hmem rfl)
      (hchars c (h2.subset (List.mem_cons_self c g'')))
  unfold parse_wind_direction
  rw [hstart, hend]
  simp only [Bool.xor_false, if_true, hstrip]
  exact lookupIndex_of_mem hc

lemma parse_prepend_garbage {canon g : Tok} (hc : canon ∈ directions) (hg : g ≠ [])
    (hchars : ∀ c ∈ g, [c] ∉ directions)
    (hnopre : ∀ t ∈ directions, ¬ t <+: g ++ canon) :
    parse_wind_direction (g ++ canon) = .ok ((direction_to_index canon).getD 0) := by
  have hne : g ++ canon ≠ [] := fun h =>
    mem_directions_ne_nil hc (List.append_eq_nil.mp h).2
  have hend : rawEnds (g ++ canon) = true :=
    rawEnds_eq.mpr (Or.inr ⟨canon, hc, List.suffix_append g canon⟩)
  have hstart : rawStarts (g ++ canon) = false := by
    rw [Bool.eq_false_iff]
    intro hx
    rcases rawStarts_eq.mp hx with h | ⟨t, ht, hpre⟩
    · exact hne h
    · exact hnopre t ht hpre
  have hstrip : stripLeft (g ++ canon) = .ok canon := by
    unfold stripLeft
    refine stripLeftFuel_cons_ok hc g hg ?_
    intro g' h1 h2 hmem
    rcases List.eq_nil_or_concat g' with rfl | ⟨l2, c, rfl⟩
    · exact h1 rfl
    · rw [List.concat_eq_append] at hmem h2
      rw [List.append_assoc, List.singleton_append] at hmem
      refine absurd (suffixExt hc hmem rfl) (hchars c (h2.subset ?_))
      simp
  unfold parse_wind_direction
  rw [hstart, hend]
  simp only [Bool.false_xor, if_true, Bool.false_eq_true, if_false, hstrip]
  exact lookupIndex_of_mem hc

/-! ### Theorems for the claims about direction parsing -/

/-- C2 counterexample: `"北静穏"` is the canonical token `"北"` (sector 0)
followed by the two characters `'静'`, `'穏'`, neither of which is itself a
canonical token; the claim says normalization recovers sector 0, but the
code raises a `KeyError` on `"北静穏"` instead (both `raw_starts` and
`raw_ends` hold, so the stripping loop is skipped and the final dict
lookup fails). -/
theorem claim_C2_counterexample :
    ['北'] ∈ directions ∧ direction_to_index ['北'] = some 0 ∧
      (['静'] : Tok) ∉ directions ∧ (['穏'] : Tok) ∉ directions ∧
      parse_wind_direction ['北', '静', '穏'] = .error (.keyError ['北', '静', '穏']) ∧
      parse_wind_direction ['北', '静', '穏'] ≠ .ok 0 := by
  decide

/-- C2 amended: `parse_wind_direction` is the identity on every canonical
token (returning that token's sector index), and recovers the original
canonical token's index for every token formed by appending (resp.
prepending) 1–3 characters, none of which is itself a canonical token,
to a canonical token — provided no canonical token is a suffix (resp.
prefix) of the extended token (without this proviso the claim fails, see
the counterexample). -/
theorem claim_C2_amended :
    (∀ d ∈ directions,
        parse_wind_direction d = .ok ((direction_to_index d).getD 0)) ∧
    (∀ canon ∈ directions, ∀ g : Tok, 1 ≤ g.length → g.length ≤ 3 →
        (∀ c ∈ g, [c] ∉ directions) →
        (∀ t ∈ directions, ¬ t <:+ canon ++ g) →
        parse_wind_direction (canon ++ g) =
          .ok ((direction_to_index canon).getD 0)) ∧
    (∀ canon ∈ directions, ∀ g : Tok, 1 ≤ g.length → g.length ≤ 3 →
        (∀ c ∈ g, [c] ∉ directions) →
        (∀ t ∈ directions, ¬ t <+: g ++ canon) →
        parse_wind_direction (g ++ canon) =
          .ok ((direction_to_index canon).getD 0)) := by
  refine ⟨fun d hd => parse_of_mem hd, ?_, ?_⟩
  · intro canon hc g h1 _ hchars hnosuf
    exact parse_append_garbage hc (List.length_pos.mp h1) hchars hnosuf
  · intro canon hc g h1 _ hchars hnopre
    exact parse_prepend_garbage hc (List.length_pos.mp h1) hchars hnopre

/-- Witness for the amended C2 at concrete inputs: the canonical token
`"南"`, the appended-garbage token `"北X"` and the prepended-garbage
token `"X北"`. -/
theorem claim_C2_witness :
    parse_wind_direction ['南'] = .ok 8 ∧
    parse_wind_direction ['北', 'X'] = .ok 0 ∧
    parse_wind_direction ['X', '北'] = .ok 0 := by
  refine ⟨?_, ?_, ?_⟩
  · rw [claim_C2_amended.1 ['南'] (by decide)]
    decide
  · show parse_wind_direction (['北'] ++ ['X']) = .ok 0
    rw [claim_C2_amended.2.1 ['北'] (by decide) ['X'] (by decide) (by decide)
      (by decide) (by decide)]
    decide
  · show parse_wind_direction (['X'] ++ ['北']) = .ok 0
    rw [claim_C2_amended.2.2 ['北'] (by decide) ['X'] (by decide) (by decide)
      (by decide) (by decide)]
    decide

/-- C5: a non-empty token with no canonical prefix and no canonical
suffix makes `parse_wind_direction` fail, surfacing the offending raw
token (the spec-level `InvalidDirection`; concretely the failing dict
lookup carries the token). -/
theorem claim_C5 (raw : Tok) (hne : raw ≠ [])
    (hpre : ∀ t ∈ directions, ¬ t <+: raw)
    (hsuf : ∀ t ∈ directions, ¬ t <:+ raw) :
    parse_wind_direction raw = .error (.keyError raw) := by
  have hs : rawStarts raw = false := by
    rw [Bool.eq_false_iff]
    intro hx
    rcases rawStarts_eq.mp hx with h | ⟨t, ht, hp⟩
    · exact hne h
    · exact hpre t ht hp
  have he : rawEnds raw = false := by
    rw [Bool.eq_false_iff]
    intro hx
    rcases rawEnds_eq.mp hx with h | ⟨t, ht, hp⟩
    · exact hne h
    · exact hsuf t ht hp
  have hmem : raw ∉ directions := fun hm => hpre raw hm (List.prefix_refl raw)
  unfold parse_wind_direction
  rw [hs, he]
  simp only [Bool.xor_false, Bool.false_eq_true, if_false]
  unfold lookupIndex
  rw [if_neg hne, direction_to_index_eq_none hmem]

/-- Witness for C5 at the concrete garbage-on-both-sides token `"XY"`. -/
theorem claim_C5_witness :
    parse_wind_direction ['X', 'Y'] = .error (.keyError ['X', 'Y']) :=
  claim_C5 ['X', 'Y'] (by decide) (by decide) (by decide)

/-- C6: an empty remainder maps to sector 16 ("calm") rather than
failing — both the final lookup step on an empty remainder and the whole
normalization of an empty direction field return sector 16. -/
theorem claim_C6 :
    lookupIndex [] = .ok 16 ∧ parse_wind_direction [] = .ok 16 := by
  decide

/-- C10: whenever the one-sided stripping loop is entered (the XOR
condition on `raw_starts` / `raw_ends` holds), the loop reaches a
canonical token before the remainder empties, so the in-loop
"Invalid direction" error is unreachable and the function returns a
sector index in 0..16. -/
theorem claim_C10 (raw : Tok)
    (h : xor (rawStarts raw) (rawEnds raw) = true) :
    ∃ i, parse_wind_direction raw = .ok i ∧ i ≤ 16 := by
  unfold parse_wind_direction
  rw [if_pos h]
  cases hs : rawStarts raw with
  | true =>
    have he : rawEnds raw = false := by
      rw [hs] at h
      cases hx : rawEnds raw
      · rfl
      · rw [hx] at h
        simp at h
    have hne : raw ≠ [] := by
      rintro rfl
      exact absurd he (by decide)
    obtain ⟨t, ht, hpre⟩ := (rawStarts_eq.mp hs).resolve_left hne
    have htne : t ≠ raw := by
      rintro rfl
      rw [rawEnds_eq.mpr (Or.inr ⟨t, ht, List.suffix_refl t⟩)] at he
      cases he
    obtain ⟨r, hr, hstrip⟩ := stripRightFuel_reaches raw t ht hpre htne
    have hsr : stripRight raw = .ok r := hstrip
    rw [if_pos rfl]
    simp only [hsr]
    exact ⟨(direction_to_index r).getD 0, lookupIndex_of_mem hr,
      direction_to_index_getD_le hr⟩
  | false =>
    have he : rawEnds raw = true := by
      rw [hs] at h
      cases hx : rawEnds raw
      · rw [hx] at h
        simp at h
      · rfl
    have hne : raw ≠ [] := by
      rintro rfl
      exact absurd hs (by decide)
    obtain ⟨t, ht, hsuf⟩ := (rawEnds_eq.mp he).resolve_left hne
    have htne : t ≠ raw := by
      rintro rfl
      rw [rawStarts_eq.mpr (Or.inr ⟨t, ht, List.prefix_refl t⟩)] at hs
      cases hs
    obtain ⟨r, hr, hstrip⟩ := stripLeftFuel_reaches raw t ht hsuf htne
    have hsl : stripLeft raw = .ok r := hstrip
    rw [if_neg (by simp)]
    simp only [hsl]
    exact ⟨(direction_to_index r).getD 0, lookupIndex_of_mem hr,
      direction_to_index_getD_le hr⟩

/-- Witness for C10 at the concrete token `"東Z"` (canonical prefix,
dirty tail): the loop is entered and a sector index is returned. -/
theorem claim_C10_witness :
    ∃ i, parse_wind_direction ['東', 'Z'] = .ok i ∧ i ≤ 16 :=
  claim_C10 ['東', 'Z'] (by decide)

/-! ### Theorems about the row pipeline (timestamp shift) -/

/-- C3: every accepted row is attributed to the hour one hour before the
logged timestamp, and its month is the month of that shifted timestamp;
in particular the row `"2023/01/01 00:30:00,5.2,—,北"` lands in month 12
with sector index 0 and speed 5.2. -/
theorem claim_C3 :
    (∀ (row : List Tok) (rec : WindRecord), process_row row = .ok rec →
        ∃ f0 dt0, row.get? 0 = some f0 ∧
          parseDateTime (pystrip f0) = some dt0 ∧
          rec.datetime = subOneHour dt0 ∧
          rec.month = (subOneHour dt0).month) ∧
    (∃ rec, process_row [("2023/01/01 00:30:00").toList, ("5.2").toList,
          ("—").toList, ("北").toList] = .ok rec ∧
        rec.month = 12 ∧ rec.direction_index = 0 ∧ rec.wind = 26 / 5 ∧
        rec.datetime = ⟨2022, 12, 31, 23, 30, 0⟩) := by
  constructor
  · intro row rec h
    unfold process_row at h
    cases h0 : row.get? 0 with
    | none => rw [h0] at h; exact absurd h (by simp)
    | some f0 =>
      rw [h0] at h
      simp only [] at h
      cases h1 : parseDateTime (pystrip f0) with
      | none => rw [h1] at h; exact absurd h (by simp)
      | some dt0 =>
        rw [h1] at h
        simp only [] at h
        refine ⟨f0, dt0, rfl, h1, ?_⟩
        cases h2 : row.get? 1 with
        | none => rw [h2] at h; exact absurd h (by simp)
        | some f1 =>
          rw [h2] at h
          simp only [] at h
          cases h3 : (if pystrip f1 = [] then some (0 : ℚ)
              else parseFloat (pystrip f1)) with
          | none => rw [h3] at h; exact absurd h (by simp)
          | some wind =>
            rw [h3] at h
            simp only [] at h
            cases h4 : row.get? 3 with
            | none => rw [h4] at h; exact absurd h (by simp)
            | some f3 =>
              rw [h4] at h
              simp only [] at h
              cases h5 : parse_wind_direction (pystrip f3) with
              | error e => rw [h5] at h; exact absurd h (by simp)
              | ok di =>
                rw [h5] at h
                simp only [] at h
                cases h
                exact ⟨rfl, rfl⟩
  · refine ⟨{ datetime := ⟨2022, 12, 31, 23, 30, 0⟩, day := ⟨2022, 12, 31, 0, 0, 0⟩, month := 12, wind := (1 : ℚ) * ((digitsVal ['5'] : ℚ) + (digitsVal ['2'] : ℚ) / 10 ^ List.length ['2']), direction_index := 0 }, rfl, rfl, rfl, ?_, rfl⟩
    show (1 : ℚ) * ((digitsVal ['5'] : ℚ) +
      (digitsVal ['2'] : ℚ) / 10 ^ List.length ['2']) = 26 / 5
    have h5 : digitsVal ['5'] = 5 := by decide
    have h2 : digitsVal ['2'] = 2 := by decide
    rw [h5, h2]
    norm_num

/-- Witness for C3: its general part applied to the concrete accepted
row from its concrete part. -/
theorem claim_C3_witness :
    ∃ f0 dt0,
      ([("2023/01/01 00:30:00").toList, ("5.2").toList, ("—").toList,
          ("北").toList] : List Tok).get? 0 = some f0 ∧
      parseDateTime (pystrip f0) = some dt0 ∧
      (⟨2022, 12, 31, 23, 30, 0⟩ : DateTime) = subOneHour dt0 ∧
      (12 : Nat) = (subOneHour dt0).month := by
  obtain ⟨rec, hrec, hm12, -, -, hdt⟩ := claim_C3.2
  obtain ⟨f0, dt0, hf0, hdt0, hd, hm⟩ := claim_C3.1 _ rec hrec
  refine ⟨f0, dt0, hf0, hdt0, ?_, ?_⟩
  · rw [← hdt]
    exact hd
  · rw [← hm12]
    exact hm

/-! ### Theorems about the rotation angle and the plotting angles -/

lemma add_loop_spec (a : ℤ) : 0 ≤ add_loop a ∧ add_loop a % 360 = a % 360 := by
  induction a using add_loop.induct with
  | case1 a h ih =>
    rw [add_loop, if_pos h]
    exact ⟨ih.1, by omega⟩
  | case2 a h =>
    rw [add_loop, if_neg h]
    omega

lemma sub_loop_spec (a : ℤ) (h0 : 0 ≤ a) :
    0 ≤ sub_loop a ∧ sub_loop a < 360 ∧ sub_loop a % 360 = a % 360 := by
  induction a using sub_loop.induct with
  | case1 a h ih =>
    rw [sub_loop, if_pos h]
    refine ⟨(ih (by omega)).1, (ih (by omega)).2.1, by omega⟩
  | case2 a h =>
    rw [sub_loop, if_neg h]
    omega

lemma normalize_angle_spec (a : ℤ) :
    0 ≤ normalize_angle a ∧ normalize_angle a < 360 ∧
      normalize_angle a = a % 360 := by
  obtain ⟨h1, h2⟩ := add_loop_spec a
  obtain ⟨h3, h4, h5⟩ := sub_loop_spec (add_loop a) h1
  unfold normalize_angle
  refine ⟨h3, h4, ?_⟩
  rw [← h2, ← h5]
  exact (Int.emod_eq_of_lt h3 h4).symm

lemma angle_list_getD (rot : ℤ) (i : ℕ) (hi : i < 16) :
    (angle_list rot).getD i 0 = wrap_hi (wrap_neg (angle_entry rot i)) := by
  unfold angle_list
  rw [List.getD_eq_getElem _ _ (by simpa using hi)]
  simp

/-- C4: the rotation angle is normalized into `[0, 360)` by the two
loops (sign-agnostic: the result is exactly `a % 360`), and for every
sector `i < 16` the plotting angle equals the raw formula
`0.25 − i/16 + rotation/360` (in units of `2π`) shifted by an integer
number of turns into `[0, 1)` (i.e. `[0, 2π)` in radians); the angle
list has exactly 16 entries, so sector 16 ("calm") gets none. -/
theorem claim_C4 (a : ℤ) (i : ℕ) (hi : i < 16) :
    (0 ≤ normalize_angle a ∧ normalize_angle a < 360 ∧
      normalize_angle a = a % 360) ∧
    (angle_list (normalize_angle a)).length = 16 ∧
    (0 ≤ (angle_list (normalize_angle a)).getD i 0 ∧
      (angle_list (normalize_angle a)).getD i 0 < 1) ∧
    ∃ k : ℤ, (angle_list (normalize_angle a)).getD i 0 =
      angle_entry (normalize_angle a) i + (k : ℚ) := by
  obtain ⟨h0, h360, hmod⟩ := normalize_angle_spec a
  refine ⟨⟨h0, h360, hmod⟩, by simp [angle_list], ?_⟩
  set r := normalize_angle a with hr
  have hiq : (i : ℚ) ≤ 15 := by
    exact_mod_cast Nat.lt_succ_iff.mp hi
  have hiq0 : (0 : ℚ) ≤ (i : ℚ) := Nat.cast_nonneg i
  have hrq0 : (0 : ℚ) ≤ (r : ℚ) := by exact_mod_cast h0
  have hrq : (r : ℚ) < 360 := by exact_mod_cast h360
  have hx_lo : angle_entry r i > -1 := by
    unfold angle_entry
    nlinarith
  have hx_hi : angle_entry r i < 2 := by
    unfold angle_entry
    nlinarith
  rw [angle_list_getD r i hi]
  unfold wrap_hi wrap_neg
  split_ifs with h1 h2 h3
  · -- negative entry, shifted up by one turn, then not ≥ 1: impossible
    exfalso
    linarith
  · exact ⟨⟨by linarith, by linarith⟩, 1, by push_cast; ring⟩
  · exact ⟨⟨by linarith, by linarith⟩, -1, by push_cast; ring⟩
  · exact ⟨⟨by linarith, by linarith⟩, 0, by push_cast; ring⟩

/-- Witness for C4 at the concrete rotation `-90` and sector `3`. -/
theorem claim_C4_witness :
    (0 ≤ normalize_angle (-90) ∧ normalize_angle (-90) < 360 ∧
      normalize_angle (-90) = (-90 : ℤ) % 360) ∧
    (angle_list (normalize_angle (-90))).length = 16 ∧
    (0 ≤ (angle_list (normalize_angle (-90))).getD 3 0 ∧
      (angle_list (normalize_angle (-90))).getD 3 0 < 1) ∧
    ∃ k : ℤ, (angle_list (normalize_angle (-90))).getD 3 0 =
      angle_entry (normalize_angle (-90)) 3 + (k : ℚ) :=
  claim_C4 (-90) 3 (by decide)

/-! ### Theorems about the aggregation (percentage sum) -/

lemma groupRows_eq_filter (rows : List WindRecord) (m d : Nat) :
    groupRows rows m d =
      (rows.filter (fun r => r.month == m)).filter
        (fun r => r.direction_index == d) := by
  unfold groupRows
  rw [List.filter_filter]
  simp [Bool.and_comm]

lemma length_groupRows_eq_count (rows : List WindRecord) (m d : Nat) :
    (groupRows rows m d).length =
      ((rows.filter (fun r => r.month == m)).map
        (fun r => r.direction_index)).count d := by
  rw [groupRows_eq_filter, ← List.countP_eq_length_filter, List.count_eq_countP,
    List.countP_map]
  rfl

lemma nhours_eq_length_dirs (rows : List WindRecord) (m : Nat) :
    nhours rows m =
      ((rows.filter (fun r => r.month == m)).map
        (fun r => r.direction_index)).length := by
  unfold nhours
  rw [List.length_map]

/-- C1: for every record list produced by the accepted rows and every
month present in the (shifted) data, the `wind_percentage` entries of
the aggregation, summed over all sectors present in that month, equal
100 exactly — in particular within the spec's floating tolerance
`1e-6`. -/
theorem claim_C1 (rows : List WindRecord) (m : Nat)
    (hm : m ∈ presentMonths rows) :
    ((presentSectors rows m).map (fun d => wind_percentage rows m d)).sum
        = 100 ∧
    |((presentSectors rows m).map (fun d => wind_percentage rows m d)).sum
        - 100| < 1 / 1000000 := by
  have hmain :
      ((presentSectors rows m).map (fun d => wind_percentage rows m d)).sum
        = 100 := by
    obtain ⟨r, hr, hrm⟩ := by
      simpa [presentMonths] using hm
    set dirs : List Nat :=
      (rows.filter (fun r => r.month == m)).map (fun r => r.direction_index)
        with hdirs
    have hdne : dirs ≠ [] := by
      have : r ∈ rows.filter (fun r => r.month == m) :=
        List.mem_filter.mpr ⟨hr, by simp [hrm]⟩
      intro hnil
      rw [hdirs] at hnil
      rcases List.map_eq_nil_iff.mp hnil with h
      rw [h] at this
      cases this
    have hN0 : ((dirs.length : ℚ)) ≠ 0 := by
      simp only [ne_eq, Nat.cast_eq_zero, List.length_eq_zero]
      exact hdne
    have hpct : ∀ d, wind_percentage rows m d =
        (dirs.count d : ℚ) / (dirs.length : ℚ) * 100 := by
      intro d
      unfold wind_percentage
      rw [length_groupRows_eq_count, nhours_eq_length_dirs]
    have hshape :
        ((presentSectors rows m).map (fun d => wind_percentage rows m d)).sum
          = ∑ d ∈ dirs.toFinset, (dirs.count d : ℚ) / (dirs.length : ℚ) * 100 := by
      have h1 : presentSectors rows m = dirs.dedup := rfl
      have h2 : (dirs.dedup.map (fun d => wind_percentage rows m d)).sum
          = ∑ d ∈ dirs.dedup.toFinset, wind_percentage rows m d :=
        (List.sum_toFinset _ (List.nodup_dedup dirs)).symm
      have h3 : dirs.dedup.toFinset = dirs.toFinset := by
        ext a
        simp
      rw [h1, h2, h3]
      exact Finset.sum_congr rfl fun d _ => hpct d
    rw [hshape, ← Finset.sum_mul, ← Finset.sum_div, ← Nat.cast_sum,
      List.sum_toFinset_count_eq_length, div_self hN0, one_mul]
  exact ⟨hmain, by rw [hmain]; norm_num⟩

/-! ### Theorems about the renderer lookup (C7) -/

lemma length_chart_values (rows : List WindRecord) (c : StatColumn) (m : Nat) :
    (chart_values (data_table rows) c m).length =
      ((presentPairs rows).filter
        (fun p => p.1 == m && decide (p.2 ∈ valid_direction_indexes))).length := by
  unfold chart_values chart_rows data_table
  rw [List.length_map, (List.mergeSort_perm _ _).length_eq, List.filter_map,
    List.length_map]
  rfl

unseal List.merge List.mergeSort in
/-- C7 counterexample: on a dataset whose single observation is in month
5 sector 0, the renderer's lookup for month 5 yields 1 value, not 16,
and the closed value list has length 2 while the closed angle list has
length 17. -/
theorem claim_C7_counterexample :
    (chart_values (data_table [{ datetime := ⟨2023, 5, 1, 0, 0, 0⟩, day := ⟨2023, 5, 1, 0, 0, 0⟩, month := 5, wind := 1, direction_index := 0 }]) .wind_percentage 5).length = 1 ∧
    (chart_values (data_table [{ datetime := ⟨2023, 5, 1, 0, 0, 0⟩, day := ⟨2023, 5, 1, 0, 0, 0⟩, month := 5, wind := 1, direction_index := 0 }]) .wind_percentage 5).length ≠ 16 ∧
    (closePoly (chart_values (data_table [{ datetime := ⟨2023, 5, 1, 0, 0, 0⟩, day := ⟨2023, 5, 1, 0, 0, 0⟩, month := 5, wind := 1, direction_index := 0 }]) .wind_percentage 5)).length = 2 ∧
    (closePoly (angle_list 0)).length = 17 := by
  decide

/-- C7 amended: provided every sector 0–15 occurs in the requested
month, the renderer looks up exactly 16 sector values (sector 16
excluded by the `is_in(range(16))` filter), and closing the polygon
makes both the value list and the angle list have length 17. -/
theorem claim_C7_amended (rows : List WindRecord) (m : Nat) (c : StatColumn)
    (hall : ∀ d, d < 16 → ∃ r ∈ rows, r.month = m ∧ r.direction_index = d) :
    (chart_values (data_table rows) c m).length = 16 ∧
    (closePoly (chart_values (data_table rows) c m)).length = 17 ∧
    (∀ rot : ℤ, (closePoly (angle_list rot)).length = 17) := by
  have h16 : (chart_values (data_table rows) c m).length = 16 := by
    rw [length_chart_values]
    have hnodup1 : ((presentPairs rows).filter
        (fun p : Nat × Nat => p.1 == m && decide (p.2 ∈ valid_direction_indexes))).Nodup :=
      (List.nodup_dedup _).filter _
    have htarget : ((List.range 16).map (fun d => (m, d))).Nodup :=
      (List.nodup_range 16).map fun x y h => congrArg Prod.snd h
    have hperm : List.Perm
        ((presentPairs rows).filter
          (fun p : Nat × Nat => p.1 == m && decide (p.2 ∈ valid_direction_indexes)))
        ((List.range 16).map (fun d => (m, d))) := by
      rw [List.perm_ext_iff_of_nodup hnodup1 htarget]
      intro p
      constructor
      · intro hp
        obtain ⟨hpP, hqp⟩ := List.mem_filter.mp hp
        simp only [Bool.and_eq_true, beq_iff_eq, decide_eq_true_eq,
          valid_direction_indexes, List.mem_range] at hqp
        simp only [List.mem_map, List.mem_range]
        exact ⟨p.2, hqp.2, by rw [← hqp.1]⟩
      · intro hp
        simp only [List.mem_map, List.mem_range] at hp
        obtain ⟨d, hd, rfl⟩ := hp
        refine List.mem_filter.mpr ⟨?_, ?_⟩
        · obtain ⟨r, hr, hrm, hrd⟩ := hall d hd
          unfold presentPairs
          rw [List.mem_dedup]
          exact List.mem_map.mpr ⟨r, hr, by rw [hrm, hrd]⟩
        · simp [valid_direction_indexes, List.mem_range, hd]
    rw [hperm.length_eq, List.length_map, List.length_range]
  refine ⟨h16, ?_, ?_⟩
  · simp [closePoly, h16]
  · intro rot
    simp [closePoly, angle_list]

/-- Witness for the amended C7: a dataset with one observation in each
of the 16 compass sectors of month 1. -/
theorem claim_C7_witness :
    (chart_values (data_table ((List.range 16).map (fun d => { datetime := ⟨2023, 1, 1, 0, 0, 0⟩, day := ⟨2023, 1, 1, 0, 0, 0⟩, month := 1, wind := 0, direction_index := d }))) .wind_mean 1).length = 16 ∧
    (closePoly (chart_values (data_table ((List.range 16).map (fun d => { datetime := ⟨2023, 1, 1, 0, 0, 0⟩, day := ⟨2023, 1, 1, 0, 0, 0⟩, month := 1, wind := 0, direction_index := d }))) .wind_mean 1)).length = 17 ∧
    (∀ rot : ℤ, (closePoly (angle_list rot)).length = 17) :=
  claim_C7_amended _ 1 .wind_mean (by decide)

/-! ### Theorems about the color palette (C8) -/

lemma hls_hues_getD (n i : ℕ) (hi : i < n) :
    (hls_hues n).getD i 0 = Int.fract ((i : ℚ) / (n : ℚ) + 1 / 100) := by
  unfold hls_hues
  rw [List.getD_eq_getElem _ _ (by simpa using hi)]
  rw [List.getElem_map, List.getElem_range]

/-- C8 counterexample: the palette `sns.hls_palette(13, l=0.5, s=1.0)`
has 13 entries, not 12 as the claim states. -/
theorem claim_C8_counterexample :
    color_palette.length = 13 ∧ color_palette.length ≠ 12 := by
  decide

/-- C8 amended: the color of a month's series is the fixed precomputed
13-entry palette (hues evenly spaced by 1/13 around the cyclic hue
space, lightness 0.5, saturation 1) indexed by `month - 1`; for every
plotted month 1–12 this lookup is defined. The palette is a class
attribute computed once, not user-configurable. -/
theorem claim_C8_amended :
    color_palette.length = 13 ∧
    (∀ i, i + 1 < 13 →
      (hls_hues 13).getD (i + 1) 0 - (hls_hues 13).getD i 0 = 1 / 13) ∧
    (∀ mo, 1 ≤ mo → mo ≤ 12 →
      series_color mo = color_palette.get? (mo - 1) ∧
      ∃ c, series_color mo = some c) := by
  refine ⟨by decide, ?_, ?_⟩
  · intro i hi
    have hi1 : i < 13 := by omega
    rw [hls_hues_getD 13 (i + 1) hi, hls_hues_getD 13 i hi1]
    have h13 : ((13 : ℕ) : ℚ) = 13 := by norm_num
    rw [h13]
    have hiq : (i : ℚ) ≤ 11 := by exact_mod_cast (by omega : i ≤ 11)
    have hiq0 : (0 : ℚ) ≤ (i : ℚ) := Nat.cast_nonneg i
    have hb1 : (i : ℚ) / 13 ≤ 11 / 13 := by gcongr
    have hb2 : ((i + 1 : ℕ) : ℚ) / 13 ≤ 12 / 13 := by
      gcongr
      push_cast
      linarith
    have hf1 : Int.fract ((i : ℚ) / 13 + 1 / 100) =
        (i : ℚ) / 13 + 1 / 100 := by
      rw [Int.fract_eq_self]
      refine ⟨by positivity, by linarith⟩
    have hf2 : Int.fract (((i + 1 : ℕ) : ℚ) / 13 + 1 / 100) =
        ((i + 1 : ℕ) : ℚ) / 13 + 1 / 100 := by
      rw [Int.fract_eq_self]
      refine ⟨by positivity, by linarith⟩
    rw [hf1, hf2]
    push_cast
    ring
  · intro mo h1 h2
    refine ⟨rfl, ?_⟩
    have hlt : mo - 1 < color_palette.length := by
      have : color_palette.length = 13 := by decide
      omega
    exact ⟨_, List.get?_eq_get hlt⟩

/-- Witness for the amended C8 at hue index 0 and month 1. -/
theorem claim_C8_witness :
    ((hls_hues 13).getD 1 0 - (hls_hues 13).getD 0 0 = 1 / 13) ∧
    (series_color 1 = color_palette.get? 0 ∧
      ∃ c, series_color 1 = some c) :=
  ⟨claim_C8_amended.2.1 0 (by decide), claim_C8_amended.2.2 1 (by decide) (by decide)⟩

/-! ### Theorems about startup file checks (C9) -/

/-- C9 counterexample: with `wind.csv` present (one valid row) and
`map.png` absent, construction does fail with the missing-file error,
but row parsing and aggregation have already been performed when the
error is raised — contradicting the claim that no processing precedes
the error for either missing file. -/
theorem claim_C9_counterexample :
    (init { fig_dir_exists := true, wind_file := some [[("2023/01/01 00:30:00").toList, ("5.2").toList, ("—").toList, ("北").toList]], map_file_exists := false } 0).1 = .error .mapNotFound ∧
    InitAction.parseAndAggregate ∈ (init { fig_dir_exists := true, wind_file := some [[("2023/01/01 00:30:00").toList, ("5.2").toList, ("—").toList, ("北").toList]], map_file_exists := false } 0).2 := by
  decide

/-- C9 amended: a missing `wind.csv` is detected before any row
parsing, aggregation or image work; a missing `map.png` is detected
only after parsing and aggregation, but before any image work. In both
cases construction fails with the corresponding missing-file error (and
`init` performs no output action at all, so no output is produced). -/
theorem claim_C9_amended (env : Env) (angle : ℤ) :
    (env.wind_file = none →
      (init env angle).1 = .error .windNotFound ∧
      InitAction.parseAndAggregate ∉ (init env angle).2 ∧
      InitAction.loadMapImage ∉ (init env angle).2) ∧
    (∀ rows recs, env.wind_file = some rows →
      rows.mapM process_row = .ok recs →
      env.map_file_exists = false →
      (init env angle).1 = .error .mapNotFound ∧
      InitAction.loadMapImage ∉ (init env angle).2) := by
  constructor
  · intro hw
    unfold init
    simp only [hw]
    refine ⟨trivial, ?_, ?_⟩ <;>
      · dsimp only
        split <;> simp
  · intro rows recs hw hok hmap
    unfold init
    simp only [hw, hok, hmap]
    rw [if_neg (by decide)]
    refine ⟨rfl, ?_⟩
    dsimp only
    split <;> simp

/-- Witness for the amended C9: both branches at concrete environments
(wind file absent; wind file present with one valid row, map absent). -/
theorem claim_C9_witness :
    ((init { fig_dir_exists := true, wind_file := none, map_file_exists := true } 0).1 = .error .windNotFound ∧
      InitAction.parseAndAggregate ∉ (init { fig_dir_exists := true, wind_file := none, map_file_exists := true } 0).2 ∧
      InitAction.loadMapImage ∉ (init { fig_dir_exists := true, wind_file := none, map_file_exists := true } 0).2) ∧
    ((init { fig_dir_exists := false, wind_file := some [], map_file_exists := false } 0).1 = .error .mapNotFound ∧
      InitAction.loadMapImage ∉ (init { fig_dir_exists := false, wind_file := some [], map_file_exists := false } 0).2) :=
  ⟨(claim_C9_amended _ 0).1 rfl, (claim_C9_amended _ 0).2 [] [] rfl rfl rfl⟩

/-- Witness for C1: a concrete two-row dataset (month 5, sectors 0 and
16) on which the percentages sum to 100. -/
theorem claim_C1_witness :
    (5 : Nat) ∈ presentMonths
        [{ datetime := ⟨2023, 5, 1, 0, 0, 0⟩, day := ⟨2023, 5, 1, 0, 0, 0⟩, month := 5, wind := 1, direction_index := 0 },
         { datetime := ⟨2023, 5, 1, 1, 0, 0⟩, day := ⟨2023, 5, 1, 0, 0, 0⟩, month := 5, wind := 2, direction_index := 16 }] ∧
    ((presentSectors
        [{ datetime := ⟨2023, 5, 1, 0, 0, 0⟩, day := ⟨2023, 5, 1, 0, 0, 0⟩, month := 5, wind := 1, direction_index := 0 },
         { datetime := ⟨2023, 5, 1, 1, 0, 0⟩, day := ⟨2023, 5, 1, 0, 0, 0⟩, month := 5, wind := 2, direction_index := 16 }] 5).map
      (fun d => wind_percentage
        [{ datetime := ⟨2023, 5, 1, 0, 0, 0⟩, day := ⟨2023, 5, 1, 0, 0, 0⟩, month := 5, wind := 1, direction_index := 0 },
         { datetime := ⟨2023, 5, 1, 1, 0, 0⟩, day := ⟨2023, 5, 1, 0, 0, 0⟩, month := 5, wind := 2, direction_index := 16 }] 5 d)).sum = 100 :=
  ⟨by decide, (claim_C1 _ 5 (by decide)).1⟩

end WindRose
